import Mathlib

/-!
# Verification of the kirjava bytecode-analysis core

A shallow embedding, in Lean 4, of the parts of the kirjava library
(a Java class-file reading/analysis/assembly library) that the spec's
quantified claims talk about:

* the class-file constant pool (`classfile/constants.pyx`: `ConstantPool.add`,
  `ConstantPool.get`, the two-phase `ConstantPool.read` resolution with its
  recursion detection, and the modified-UTF-8 codec of the `UTF8` constant);
* the abstract-interpretation frame calculus (`analysis/trace.pyx`, dev
  branch: `Frame.push/pop/dup/dup2/swap/get/set/replace/copy`, the
  per-edge frame setup `_setup_edge_trace`, and `Trace.from_graph`'s
  running `max_stack`/`max_locals`);
* the control-flow-graph model (`abc/graph.pyx`: `Graph._connect` with
  per-edge-kind limits, `Graph._disconnect`, `Graph._remove`);
* the assembler's wide-jump substitution and temporary-block bookkeeping
  (`analysis/_assembler.pxi`: `_write_block`, `InsnGraph.assemble`).

Python dictionaries are modelled as association lists (first match wins,
in-place overwrite), Python sets as duplicate-free lists, Python object
identity as explicit numeric ids threaded through a counter.
-/

namespace Kirjava

/-! ## Association-list helpers (Python `dict` semantics) -/

/-- `dict.get(k, None)`: first binding of `k`, if any. -/
def alookup {α β : Type} [DecidableEq α] : List (α × β) → α → Option β
  | [], _ => none
  | (k, v) :: rest, k' => if k' = k then some v else alookup rest k'

/-- `dict[k] = v`: overwrite the binding of `k` in place, else append. -/
def aset {α β : Type} [DecidableEq α] : List (α × β) → α → β → List (α × β)
  | [], k, v => [(k, v)]
  | (k', v') :: rest, k, v =>
    if k = k' then (k, v) :: rest else (k', v') :: aset rest k v

/-! ## Constants (`classfile/constants.pyx`)

The tagged constant variants.  Strings are lists of Unicode code points
(so the modified-UTF-8 codec can be stated byte by byte); the payloads of
the numeric constants are opaque to every claim and kept as integers.
Reference constants whose readers dereference other pool slots
(`Class`, `String`, ...) carry their resolved payloads here; the
unresolved two-phase form lives in `RawConstant` below. -/

inductive Constant where
  /-- `Index`: placeholder for an invalid/unresolved pool index. -/
  | index (i : Nat)
  | utf8 (value : List Nat)
  | integer (value : Int)
  | flt (value : Int)
  | lng (value : Int)
  | dbl (value : Int)
  | classRef (name : List Nat)
  | stringRef (value : List Nat)
  | nameAndType (name descriptor : List Nat)
  deriving DecidableEq, Repr

/-- `ConstantInfo.wide`: `Long` and `Double` occupy two pool slots. -/
def Constant.wide : Constant → Bool
  | .lng _ | .dbl _ => true
  | _ => false

def Constant.isIndex : Constant → Bool
  | .index _ => true
  | _ => false

/-- The `constant.__class__ is Index` test of `ConstantPool.add`,
together with the `constant.value` it returns in that case. -/
def Constant.asIndex : Constant → Option Nat
  | .index i => some i
  | _ => none

/-! ## The constant pool (`ConstantPool`) -/

/-- `ConstantPool`: `_index` is the next free slot, `_forward_entries`
maps index → constant, `_backward_entries` constant → index. -/
structure ConstantPool where
  index : Nat
  forward : List (Nat × Constant)
  backward : List (Constant × Nat)
  deriving DecidableEq, Repr

/-- `ConstantPool()`: the pool starts at offset 1. -/
def ConstantPool.empty : ConstantPool := ⟨1, [], []⟩

/-- `ConstantPool.get(index)` with the default arguments
(`default=None`, `do_raise=False`): the forward entry, or an `Index`
placeholder when the slot is absent. -/
def ConstantPool.get (P : ConstantPool) (i : Nat) : Constant :=
  match alookup P.forward i with
  | some c => c
  | none => .index i

/-- `ConstantPool.add(constant)` for a `ConstantInfo` argument (the
`str` shorthand wraps in `UTF8` before reaching this code and is not
modelled separately): `Index` returns its own value untouched; a
dedup hit returns the existing index; otherwise the constant is stored
at `_index`, which then advances by 1 (2 when wide).  Returns the
updated pool and the index. -/
def ConstantPool.add (P : ConstantPool) (c : Constant) : ConstantPool × Nat :=
  match c.asIndex with
  | some i => (P, i)
  | none =>
    match alookup P.backward c with
    | some i => (P, i)
    | none =>
      let i := P.index
      (⟨i + 1 + (if c.wide then 1 else 0), aset P.forward i c, aset P.backward c i⟩, i)

/-- Coherence of the two dedup directions: every backward binding is
mirrored by the forward table and sits below the next free slot.
Holds for every pool the source builds (empty pools, `read`, `add`,
`__setitem__` all keep the two maps in sync and `_index` past every
occupied slot). -/
def ConstantPool.WF (P : ConstantPool) : Prop :=
  ∀ c i, alookup P.backward c = some i →
    alookup P.forward i = some c ∧ i < P.index

/-! ## Two-phase constant-pool resolution (`ConstantPool.read`)

The first pass of `read` collects, per slot, a closure capturing the raw
index references of the constant (`lookups`); the second pass resolves
every closure through `dynamic_deref`, which carries the current
resolution stack in `visited`. -/

/-- A collected but not yet resolved slot.  `direct` covers the readers
that never dereference (`UTF8`, `Integer`, `Float`, `Long`, `Double`);
`classRef`/`stringRef` capture a raw index whose `value` they take once
dereferenced, as in `lambda dynamic_deref: cls(dynamic_deref(index).value)`. -/
inductive RawConstant where
  | direct (c : Constant)
  | classRef (index : Nat)
  | stringRef (index : Nat)
  deriving DecidableEq, Repr

/-- The `.value` payload the dereferencing readers take from the
resolved constant (a `str` for the constants they expect there). -/
def Constant.valueBytes : Constant → Option (List Nat)
  | .utf8 v => some v
  | .classRef n => some n
  | .stringRef v => some v
  | _ => none

/-- Resolve one collected slot against a dereferencing callback. -/
def RawConstant.eval (deref : Nat → Except String Constant) :
    RawConstant → Except String Constant
  | .direct c => .ok c
  | .classRef j =>
    match deref j with
    | .ok c =>
      match c.valueBytes with
      | some v => .ok (.classRef v)
      | none => .error "AttributeError: value"
    | .error e => .error e
  | .stringRef j =>
    match deref j with
    | .ok c =>
      match c.valueBytes with
      | some v => .ok (.stringRef v)
      | none => .error "AttributeError: value"
    | .error e => .error e

/-- `dynamic_deref(index, visited)`: raise `ValueError` when `index` is
already on the resolution stack, otherwise push it and resolve the
slot's lookup recursively.  The recursion is bounded by explicit fuel;
`resolvePool` supplies enough fuel that either a constant resolves or a
revisit is detected first. -/
def dynamicDeref (lookups : List (Nat × RawConstant)) :
    Nat → Nat → List Nat → Except String Constant
  | 0, _, _ => .error "RecursionError"
  | fuel + 1, i, visited =>
    if i ∈ visited then
      .error ("Recursive constant at index " ++ toString i ++ ".")
    else
      match alookup lookups i with
      | none => .error ("KeyError: " ++ toString i)
      | some raw => raw.eval (fun j => dynamicDeref lookups fuel j (visited ++ [i]))

/-- The second pass of `ConstantPool.read`: resolve every collected
lookup, each with a fresh resolution stack.  There is no handler around
the loop, so the first `ValueError` aborts the whole read. -/
def resolvePool (lookups : List (Nat × RawConstant)) :
    Except String (List (Nat × Constant)) :=
  lookups.mapM fun p =>
    (p.2.eval (fun j => dynamicDeref lookups (lookups.length + 1) j [])).map
      (fun c => (p.1, c))

/-! ## The modified-UTF-8 codec of the `UTF8` constant

`UTF8.write` emits `self.value.encode("utf-8").replace(b"\x00", b"\xc0\x80")`;
`UTF8.read` decodes `value.replace(b"\xc0\x80", b"\x00").decode("utf-8",
errors="ignore")`.  Strings are lists of Unicode scalar values; the
`encode`/`decode` primitives are CPython's strict UTF-8 codec, modelled
here byte by byte (with `ignore` skipping offending bytes one at a
time, which produces the same output as CPython's error ranges on the
inputs below). -/

/-- Standard UTF-8 encoding of one Unicode scalar value
(CPython `str.encode("utf-8")`). -/
def utf8EncodeChar (c : Nat) : List Nat :=
  if c ≤ 0x7F then [c]
  else if c ≤ 0x7FF then [0xC0 + c / 64, 0x80 + c % 64]
  else if c ≤ 0xFFFF then [0xE0 + c / 4096, 0x80 + c / 64 % 64, 0x80 + c % 64]
  else [0xF0 + c / 262144, 0x80 + c / 4096 % 64, 0x80 + c / 64 % 64, 0x80 + c % 64]

/-- `UTF8.write`'s payload bytes: encode, then replace every 0x00 byte
by the pair `C0 80`. -/
def UTF8.writeBytes (s : List Nat) : List Nat :=
  (s.flatMap utf8EncodeChar).flatMap fun b => if b = 0 then [0xC0, 0x80] else [b]

/-- `bytes.replace(b"\xc0\x80", b"\x00")`: left-to-right,
non-overlapping. -/
def replaceC080 : List Nat → List Nat
  | 0xC0 :: 0x80 :: rest => 0 :: replaceC080 rest
  | b :: rest => b :: replaceC080 rest
  | [] => []

/-- Is `b` a UTF-8 continuation byte (`0x80..0xBF`)? -/
def contByte (b : Nat) : Bool := decide (0x80 ≤ b ∧ b ≤ 0xBF)

/-- CPython's strict UTF-8 decoder under `errors="ignore"`: overlong
forms, surrogates and out-of-range leads are rejected; an offending
byte is skipped and decoding continues.  The recursion is driven by
fuel (`utf8DecodeIgnore` supplies the list length, which every path
stays within because each step consumes at least one byte). -/
def utf8DecodeIgnoreFuel : Nat → List Nat → List Nat
  | 0, _ => []
  | _, [] => []
  | fuel + 1, b0 :: rest =>
    if b0 ≤ 0x7F then b0 :: utf8DecodeIgnoreFuel fuel rest
    else if 0xC2 ≤ b0 ∧ b0 ≤ 0xDF then
      match rest with
      | b1 :: rest2 =>
        if contByte b1 then
          ((b0 - 0xC0) * 64 + (b1 - 0x80)) :: utf8DecodeIgnoreFuel fuel rest2
        else utf8DecodeIgnoreFuel fuel rest
      | [] => []
    else if 0xE0 ≤ b0 ∧ b0 ≤ 0xEF then
      match rest with
      | b1 :: b2 :: rest3 =>
        if contByte b1 ∧ contByte b2 ∧ (b0 ≠ 0xE0 ∨ 0xA0 ≤ b1) ∧
            (b0 ≠ 0xED ∨ b1 ≤ 0x9F) then
          ((b0 - 0xE0) * 4096 + (b1 - 0x80) * 64 + (b2 - 0x80)) ::
            utf8DecodeIgnoreFuel fuel rest3
        else utf8DecodeIgnoreFuel fuel rest
      | _ => utf8DecodeIgnoreFuel fuel rest
    else if 0xF0 ≤ b0 ∧ b0 ≤ 0xF4 then
      match rest with
      | b1 :: b2 :: b3 :: rest4 =>
        if contByte b1 ∧ contByte b2 ∧ contByte b3 ∧ (b0 ≠ 0xF0 ∨ 0x90 ≤ b1) ∧
            (b0 ≠ 0xF4 ∨ b1 ≤ 0x8F) then
          ((b0 - 0xF0) * 262144 + (b1 - 0x80) * 4096 + (b2 - 0x80) * 64 +
            (b3 - 0x80)) :: utf8DecodeIgnoreFuel fuel rest4
        else utf8DecodeIgnoreFuel fuel rest
      | _ => utf8DecodeIgnoreFuel fuel rest
    else utf8DecodeIgnoreFuel fuel rest

def utf8DecodeIgnore (l : List Nat) : List Nat :=
  utf8DecodeIgnoreFuel l.length l

/-- `UTF8.read`'s payload decode. -/
def UTF8.readString (bytes : List Nat) : List Nat :=
  utf8DecodeIgnore (replaceC080 bytes)

/-- Modelled from the spec: "supplementary code points use
surrogate-pair CESU-8 encoding" — the UTF-16 surrogate pair of the
code point, each half emitted as a 3-byte sequence.  (Not present in
the source, which uses CPython's standard UTF-8 `encode`; this
definition exists only to compare the spec's sentence with
`UTF8.writeBytes`.) -/
def cesu8EncodeSupplementary (c : Nat) : List Nat :=
  utf8EncodeChar (0xD800 + (c - 0x10000) / 1024) ++
    utf8EncodeChar (0xDC00 + (c - 0x10000) % 1024)

/-! ## Verification types and stack/locals entries (`analysis/trace.pyx`,
dev branch — the `Entry`/`Frame` module)

Entry identity (Python object identity) is modelled by the `eid` field,
freshly allocated from the frame's `nextId` counter; a cast chain is the
nested `parent`. -/

inductive VType where
  | top
  | int
  | float
  | long
  | double
  | nullRef
  | returnAddress
  | reference (name : String)
  | arrayT (descriptor : String)
  | uninitialized (offset : Nat)
  | uninitializedThis (name : String)
  | thisT (name : String)
  deriving DecidableEq, Repr

/-- `internal_size`: slots occupied on the stack/locals. -/
def VType.internalSize : VType → Nat
  | .long | .double => 2
  | _ => 1

/-- Verification category: 2 for `long`/`double`, 1 otherwise. -/
def VType.category : VType → Nat
  | .long | .double => 2
  | _ => 1

def VType.isReference : VType → Bool
  | .reference _ | .arrayT _ | .nullRef => true
  | _ => false

def throwableT : VType := .reference "java/lang/Throwable"

/-- A stack/locals entry: id, type, optional literal value, optional
cast parent.  The `source` field of the Python `Entry` is omitted: no
claim observes it and it never feeds back into the calculus. -/
inductive Entry where
  | base (eid : Nat) (ty : VType) (value : Option Constant)
  | cast (eid : Nat) (ty : VType) (value : Option Constant) (parent : Entry)
  deriving DecidableEq, Repr

def Entry.eid : Entry → Nat
  | .base i _ _ => i
  | .cast i _ _ _ => i

def Entry.ty : Entry → VType
  | .base _ t _ => t
  | .cast _ t _ _ => t

def Entry.value : Entry → Option Constant
  | .base _ _ v => v
  | .cast _ _ v _ => v

def Entry.parent : Entry → Option Entry
  | .base _ _ _ => none
  | .cast _ _ _ p => some p

/-- Python `Entry.__eq__`: `other is self or (self.parent is not None
and other == self.parent)`, with the nested comparison swapping sides.
Unrolling one alternation gives a structural recursion on the first
argument's cast chain. -/
def Entry.pyEq : Entry → Entry → Bool
  | .base i _ _, b => i == b.eid
  | .cast i _ _ pa, b =>
    i == b.eid || pa.eid == b.eid ||
      (match b.parent with
       | none => false
       | some pb => Entry.pyEq pa pb)

/-- The sole `top` sentinel entry (`self.top = Entry(None, types.top_t)`),
given the reserved id 0; frame id counters start at 1. -/
def topEntry : Entry := .base 0 .top none

/-! ## The type-checker interface

The frame operations consult `self.verifier.checker`; the operations
are parametric in it here.  The concrete checker classes
(`BasicTypeChecker`, `FullTypeChecker`) are not under `src/`. -/

structure TypeChecker where
  checkMerge : VType → VType → Bool
  /-- `merge(expect, actual)` as called from the cast paths (the
  `expect` argument may be the `None` reference expectation). -/
  mergeT : Option VType → VType → VType
  /-- `merge(a, b, fallback=f)`. -/
  mergeFallback : VType → VType → VType → VType
  checkCategory : VType → Nat → Bool
  checkReference : VType → Bool
  checkArray : VType → Bool

/-- Modelled from the spec: `BasicTypeChecker` (not under `src/`) —
"verification types ..., `check_merge`, `merge`, category width":
equal types merge, `top` merges with everything, references merge with
references; `merge` prefers the expectation; category is the type's
width. -/
def basicChecker : TypeChecker where
  checkMerge a b :=
    a == b || a == .top || b == .top || (a.isReference && b.isReference)
  mergeT e a := match e with | some t => t | none => a
  mergeFallback a b fb := if a = b then a else fb
  checkCategory t c := decide (t.category ≤ c)
  checkReference t := t.isReference
  checkArray t := match t with | .arrayT _ => true | _ => false

/-- The `expect` argument of the frame operations: a type expectation,
`None` (any reference), or the `ArrayType` class object. -/
inductive Expect where
  | ty (t : VType)
  | anyRef
  | anyArray
  deriving DecidableEq, Repr

def Expect.toType : Expect → Option VType
  | .ty t => some t
  | _ => none

/-- Verifier error kinds (`ErrorType`), carried without their source
references and messages. -/
inductive ErrKind where
  | invalidType
  | invalidTypeCategory
  | stackUnderflow
  | unknownLocal
  | invalidBlock
  | invalidEdge
  | expectedReference
  | invalidStackMerge
  | invalidLocalsMerge
  deriving DecidableEq, Repr

/-! ## The frame (`Frame`) -/

/-- `Frame`: the stack (head = top of stack, i.e. the reverse of the
Python list), the sparse locals dict, the append-only local-access log
`(read?, index, entry)`, the running maxima and the verifier's error
log.  The delta-recording session (`_pops`/`_pushes`/`_swaps`/`_dups`/
`_overwrites` behind `start`/`finish`) and the `consumed` set are
omitted: they never feed back into the stack, locals, access log or
maxima, and no claim observes them. -/
structure Frame where
  stack : List Entry
  locals : List (Nat × Entry)
  accesses : List (Bool × Nat × Entry)
  maxStack : Nat
  maxLocals : Nat
  errors : List ErrKind
  nextId : Nat
  deriving DecidableEq, Repr

def Frame.empty : Frame := ⟨[], [], [], 0, 0, [], 1⟩

/-- `entry.cast(source, type_)`: a fresh entry with the old one as
parent and the old literal value (`Entry(source, type_, parent=self,
value=self.value)`). -/
def Entry.mkCast (e : Entry) (nid : Nat) (t : VType) : Entry :=
  .cast nid t e.value e

/-- One category-1 check, as a reported-error list. -/
def catErr (ck : TypeChecker) (e : Entry) : List ErrKind :=
  if ck.checkCategory e.ty 1 then [] else [.invalidTypeCategory]

/-- `Frame._check_type(expect, entry, allow_return_address)`: whether
the entry matches, plus the errors reported while checking. -/
def checkType (ck : TypeChecker) (expect : Expect) (e : Entry)
    (allowRetAddr : Bool) : Bool × List ErrKind :=
  if expect = .ty .top ∨ e.ty = .top then (true, [])
  else
    match expect with
    | .anyRef =>
      if allowRetAddr ∧ e.ty = .returnAddress then (true, [])
      else if ck.checkReference e.ty then (true, [])
      else (false, [.expectedReference])
    | .anyArray =>
      if ck.checkArray e.ty then (true, []) else (true, [.invalidType])
    | .ty t =>
      if ck.checkMerge t e.ty then (true, []) else (false, [.invalidType])

/-- `Frame.push` with an `Entry` argument: the entry goes on the stack,
a `top` sentinel on top of it when it is wide, and `max_stack` rises to
the new length if exceeded. -/
def Frame.pushEntry (f : Frame) (e : Entry) : Frame :=
  let stack := (if e.ty.internalSize > 1 then [topEntry] else []) ++ e :: f.stack
  { f with stack, maxStack := max f.maxStack stack.length }

/-- `Frame.push` with a type argument: a fresh entry
(`Entry(self._source, type_, value=value)`) is created first. -/
def Frame.pushT (f : Frame) (t : VType) (v : Option Constant) : Frame :=
  Frame.pushEntry { f with nextId := f.nextId + 1 } (.base f.nextId t v)

/-- `Frame.pop()` — the fast single-entry path: pop, type-check
(substituting a cast of the merged type on mismatch), category-check,
or report an underflow and yield the `top` sentinel. -/
def Frame.pop1 (ck : TypeChecker) (f : Frame) (expect : Expect) :
    Entry × Frame :=
  match f.stack with
  | [] => (topEntry, { f with errors := f.errors ++ [.stackUnderflow] })
  | e :: rest =>
    let ok := (checkType ck expect e false).1
    let errs1 := (checkType ck expect e false).2
    let e' := if ok then e else e.mkCast f.nextId (ck.mergeT expect.toType e.ty)
    let nid := if ok then f.nextId else f.nextId + 1
    let errs2 := catErr ck e'
    (e', { f with stack := rest, nextId := nid,
                  errors := f.errors ++ errs1 ++ errs2 })

/-- The `for index in range(count)` loop of `Frame.pop`: entries in pop
order, the underflow count, and the updated frame. -/
def Frame.popLoop (ck : TypeChecker) (expect : Expect) :
    Frame → Nat → List Entry × Nat × Frame
  | f, 0 => ([], 0, f)
  | f, n + 1 =>
    match f.stack with
    | e :: rest =>
      let ok := (checkType ck expect e false).1
      let errs1 := (checkType ck expect e false).2
      let e' := if ok then e else e.mkCast f.nextId (ck.mergeT expect.toType e.ty)
      let nid := if ok then f.nextId else f.nextId + 1
      let r := Frame.popLoop ck expect
        { f with stack := rest, nextId := nid, errors := f.errors ++ errs1 } n
      (e' :: r.1, r.2.1, r.2.2)
    | [] =>
      let r := Frame.popLoop ck expect f n
      (topEntry :: r.1, r.2.1 + 1, r.2.2)

/-- `Frame.pop(count)` for a multi-entry pop: run the loop, category-
check the first popped entry, report any underflow once.  (`count = 0`
would raise `IndexError` at `entries[0]` in the source and never occurs
in traces; here the category check is skipped for an empty result.) -/
def Frame.popN (ck : TypeChecker) (f : Frame) (count : Nat) (expect : Expect) :
    List Entry × Frame :=
  let r := Frame.popLoop ck expect f count
  let errsCat :=
    match r.1.head? with
    | some e => catErr ck e
    | none => []
  let errsU := if r.2.1 > 0 then [ErrKind.stackUnderflow] else []
  (r.1, { r.2.2 with errors := r.2.2.errors ++ errsCat ++ errsU })

/-- `Frame.get(index, expect)`: read access recorded on success (with
the possibly-cast entry); unknown locals report and yield `top` with no
access recorded. -/
def Frame.get (ck : TypeChecker) (f : Frame) (index : Nat) (expect : Expect) :
    Entry × Frame :=
  match alookup f.locals index with
  | some e =>
    let ok := (checkType ck expect e false).1
    let errs := (checkType ck expect e false).2
    let e' := if ok then e else e.mkCast f.nextId (ck.mergeT expect.toType e.ty)
    let nid := if ok then f.nextId else f.nextId + 1
    (e', { f with nextId := nid,
                  accesses := f.accesses ++ [(true, index, e')],
                  errors := f.errors ++ errs })
  | none => (topEntry, { f with errors := f.errors ++ [.unknownLocal] })

/-- `Frame.set` with an `Entry` argument.  When the local already `==`
the entry (Python `Entry.__eq__`) the call returns immediately with
nothing recorded; otherwise the (possibly-cast) entry is stored, a
write access appended, a `top` sentinel stored at `index + 1` for wide
entries, and `max_locals` raised past the last slot written. -/
def Frame.setE (ck : TypeChecker) (f : Frame) (index : Nat) (e : Entry)
    (expect : Expect) : Frame :=
  if (match alookup f.locals index with
      | some l => l.pyEq e
      | none => false) then f
  else
    let ok := (checkType ck expect e true).1
    let errs := (checkType ck expect e true).2
    let e' := if ok then e else e.mkCast f.nextId (ck.mergeT expect.toType e.ty)
    let nid := if ok then f.nextId else f.nextId + 1
    let wide := e'.ty.internalSize > 1
    let idx := if wide then index + 2 else index + 1
    { f with nextId := nid,
             locals :=
               if wide then aset (aset f.locals index e') (index + 1) topEntry
               else aset f.locals index e',
             accesses := f.accesses ++ [(false, index, e')],
             errors := f.errors ++ errs,
             maxLocals := max f.maxLocals idx }

/-- `Frame.set` with a type argument: a fresh entry is created first. -/
def Frame.setT (ck : TypeChecker) (f : Frame) (index : Nat) (t : VType)
    (v : Option Constant) (expect : Expect) : Frame :=
  Frame.setE ck { f with nextId := f.nextId + 1 } index (.base f.nextId t v)
    expect

/-- `Frame.replace(old, new)`: one fresh entry (parent `old`, no
value — `Entry(source, new, parent=old)`) replaces every occurrence of
`old` (object identity) on the stack and in the locals. -/
def Frame.replace (f : Frame) (old : Entry) (t : VType) : Frame :=
  let e : Entry := .cast f.nextId t none old
  { f with nextId := f.nextId + 1,
           stack := f.stack.map (fun x => if x = old then e else x),
           locals := f.locals.map (fun p => if p.2 = old then (p.1, e) else p) }

/-- `Frame.swap()`: swap the two top entries; with fewer than two, `top`
sentinels are appended (without a `max_stack` update) and underflow is
reported. -/
def Frame.swap (ck : TypeChecker) (f : Frame) : Frame :=
  match f.stack with
  | b :: a :: rest =>
    let errs :=
      (if ck.checkCategory a.ty 1 then [] else [ErrKind.invalidTypeCategory]) ++
        (if ck.checkCategory b.ty 1 then [] else [ErrKind.invalidTypeCategory])
    { f with stack := a :: b :: rest, errors := f.errors ++ errs }
  | [b] =>
    let errs :=
      [ErrKind.stackUnderflow] ++
        (if ck.checkCategory topEntry.ty 1 then [] else [ErrKind.invalidTypeCategory]) ++
          (if ck.checkCategory b.ty 1 then [] else [ErrKind.invalidTypeCategory])
    { f with stack := [topEntry, b], errors := f.errors ++ errs }
  | [] => { f with stack := [topEntry], errors := f.errors ++ [.stackUnderflow] }

/-- Python `list.insert(-(k), e)` in the reversed (top-first)
representation: insert at depth `k` from the top; `take`/`drop` clamp
at the bottom exactly as Python clamps negative positions at 0. -/
def insertFromTop (r : List Entry) (k : Nat) (e : Entry) : List Entry :=
  r.take k ++ e :: r.drop k

/-- `Frame.dup(displace)` — `dup`, `dup_x1`, `dup_x2`. -/
def Frame.dup (ck : TypeChecker) (f : Frame) (displace : Nat) : Frame :=
  if displace = 0 then
    match f.stack with
    | [] =>
      { f with stack := [topEntry], errors := f.errors ++ [.stackUnderflow],
               maxStack := max f.maxStack 1 }
    | e :: rest =>
      let errs := catErr ck e ++
        (match rest.head? with
         | some e2 => catErr ck e2
         | none => [])
      let stack := e :: e :: rest
      { f with stack, errors := f.errors ++ errs,
               maxStack := max f.maxStack stack.length }
  else
    let (e, errsU) :=
      match f.stack.head? with
      | some e => (e, ([] : List ErrKind))
      | none => (topEntry, [ErrKind.stackUnderflow])
    let errs2 :=
      match f.stack.get? 1 with
      | some x => catErr ck x
      | none => []
    let errs3 :=
      match f.stack.get? displace with
      | some x =>
        catErr ck x ++
          (match f.stack.get? (displace + 1) with
           | some y => catErr ck y
           | none => [])
      | none => []
    let stack := insertFromTop f.stack (displace + 1) e
    { f with stack, errors := f.errors ++ errsU ++ errs2 ++ errs3,
             maxStack := max f.maxStack stack.length }

/-- `Frame.dup2(displace)` — `dup2`, `dup2_x1`, `dup2_x2`. -/
def Frame.dup2 (ck : TypeChecker) (f : Frame) (displace : Nat) : Frame :=
  if displace = 0 then
    let (stack1, u1, errsA) :=
      match f.stack with
      | b :: a :: rest =>
        (a :: b :: a :: rest, 0,
          match rest.head? with
          | some x => catErr ck x
          | none => [])
      | s => (topEntry :: s, 1, [])
    let (stack2, u2) :=
      match stack1.get? 1 with
      | some x => (x :: stack1, 0)
      | none => (topEntry :: stack1, 1)
    let errsU := if u1 + u2 > 0 then [ErrKind.stackUnderflow] else []
    { f with stack := stack2, errors := f.errors ++ errsA ++ errsU,
             maxStack := max f.maxStack stack2.length }
  else
    let (ea, eb, errsU) :=
      match f.stack with
      | b :: a :: _ => (a, b, ([] : List ErrKind))
      | [b] => (topEntry, b, [ErrKind.stackUnderflow])
      | [] => (topEntry, topEntry, [ErrKind.stackUnderflow])
    let errs3 :=
      match f.stack.get? 2 with
      | some x =>
        catErr ck x ++
          (match f.stack.get? (displace * 2 + 1) with
           | some y => catErr ck y
           | none => [])
      | none => []
    let stack := insertFromTop f.stack (displace * 2 + 1) ea
    let stack := insertFromTop stack (displace * 2 + 1) eb
    { f with stack, errors := f.errors ++ errsU ++ errs3,
             maxStack := max f.maxStack stack.length }

/-- `Frame.copy(deep)`: stack, locals and maxima always carried over;
the access log only on a deep copy.  (The error log lives on the shared
verifier and persists either way.) -/
def Frame.copy (f : Frame) (deep : Bool) : Frame :=
  { f with accesses := if deep then f.accesses else [] }

/-! ## Frame operations as a sequence (for the invariants claim) -/

/-- The frame operations (and `copy`) the invariants claim quantifies
over, with their arguments. -/
inductive FrameOp where
  | push (t : VType) (v : Option Constant)
  | pushE (e : Entry)
  | pop (expect : Expect)
  | popN (count : Nat) (expect : Expect)
  | dup (displace : Nat)
  | dup2 (displace : Nat)
  | swap
  | get (index : Nat) (expect : Expect)
  | set (index : Nat) (e : Entry) (expect : Expect)
  | setT (index : Nat) (t : VType) (v : Option Constant) (expect : Expect)
  | replace (old : Entry) (t : VType)
  | copy (deep : Bool)

def FrameOp.apply (ck : TypeChecker) (f : Frame) : FrameOp → Frame
  | .push t v => f.pushT t v
  | .pushE e => f.pushEntry e
  | .pop expect => (f.pop1 ck expect).2
  | .popN n expect => (f.popN ck n expect).2
  | .dup d => f.dup ck d
  | .dup2 d => f.dup2 ck d
  | .swap => f.swap ck
  | .get i expect => (f.get ck i expect).2
  | .set i e expect => f.setE ck i e expect
  | .setT i t v expect => f.setT ck i t v expect
  | .replace old t => f.replace old t
  | .copy deep => f.copy deep

def FrameOp.applyAll (ck : TypeChecker) (f : Frame) (ops : List FrameOp) :
    Frame :=
  ops.foldl (FrameOp.apply ck) f

/-! ## The initial frame and the scenario trace (`Frame.initial`,
`Trace.from_graph`) -/

/-- `Frame.initial` for a static method: no receiver; every parameter
type is stored at the running `max_locals`
(`frame.set(frame.max_locals, argument_type)`). -/
def Frame.initialStatic (ck : TypeChecker) (args : List VType) : Frame :=
  args.foldl (fun f t => f.setT ck f.maxLocals t none (.ty .top)) Frame.empty

/-- Modelled from the spec: the per-instruction `trace(frame)` contract
(§4.4 of the spec, "the instruction mutates the frame via
`pop`/`push`/`get`/`set`") for the instructions of the `int add(int,
int)` scenario — the per-opcode instruction classes are not under
`src/`; the frame operations they invoke are the ones embedded above
from the source.  `iload_n` reads local `n` expecting `int` and pushes
the entry; `iadd` pops two ints and pushes an `int`; `ireturn` pops an
int. -/
inductive Insn where
  | iload (n : Nat)
  | iadd
  | ireturn

def Insn.trace (ck : TypeChecker) (f : Frame) : Insn → Frame
  | .iload n =>
    let (e, f) := f.get ck n (.ty .int)
    f.pushEntry e
  | .iadd =>
    let (_, f) := f.popN ck 2 (.ty .int)
    f.pushT .int none
  | .ireturn => (f.pop1 ck (.ty .int)).2

/-- The single block of `int add(int a, int b) { return a + b; }`,
traced from the initial frame of the static `(II)I` method, exactly as
`Trace.from_graph` runs the block's instructions in order. -/
def addMethodFrame : Frame :=
  [Insn.iload 0, .iload 1, .iadd, .ireturn].foldl
    (fun f i => i.trace basicChecker f)
    (Frame.initialStatic basicChecker [.int, .int])

/-! ## Per-edge frame setup (`_setup_edge_trace`) -/

/-- The edge shapes `_setup_edge_trace` distinguishes. -/
inductive TEdge where
  | jsrFallthrough
  | exceptionE (throwable : VType)
  | plain

/-- `_setup_edge_trace` (frame-setup portion; the constraint-
memoization scan that follows only decides whether the block is
recomputed and is omitted).  `none` models `return False` (skip the
edge).  On an exception edge: clear the stack, check the declared
throwable against `java/lang/Throwable` (reporting `INVALID_TYPE` on
failure), then push one entry of the merged type
(`merge(throwable_t, throwable, fallback=throwable_t)`). -/
def setupEdgeFrame (ck : TypeChecker) (f : Frame) : TEdge → Option Frame
  | .jsrFallthrough => none
  | .exceptionE t =>
    let errs := if ck.checkMerge throwableT t then [] else [ErrKind.invalidType]
    let merged := ck.mergeFallback throwableT t throwableT
    some { f with stack := [.base f.nextId merged none],
                  nextId := f.nextId + 1,
                  errors := f.errors ++ errs }
  | .plain => some f

/-! ## Claim theorems: frame maxima (C9) -/

/-- The bound the invariants claim derives: the stack never exceeds
`max_stack` and every occupied local index lies below `max_locals`. -/
def Frame.SizeInv (f : Frame) : Prop :=
  f.stack.length ≤ f.maxStack ∧ ∀ p ∈ f.locals, p.1 < f.maxLocals

/-! ## The control-flow graph (`abc/graph.pyx`)

Blocks are identified by their integer labels (`ReturnBlock` is −1,
`RethrowBlock` −2); the block dict `_blocks` becomes the label list
`blocks`, and the per-block edge sets `_forward_edges`/`_backward_edges`
become association lists of duplicate-free edge lists. -/

/-- The edge variants of the instruction graph. -/
inductive EdgeKind where
  | fallthrough
  | jump
  | jsrJump
  | jsrFallthrough
  | ret
  | switchE
  | exception
  deriving DecidableEq, Repr

/-- The `limit` class attribute: `FallthroughEdge.limit = 1` and
`JumpEdge.limit = 1` (inherited unchanged by `JsrJumpEdge`,
`JsrFallthroughEdge` and `RetEdge`); `SwitchEdge` resets it to `None`,
and `ExceptionEdge` inherits `Edge.limit = None`. -/
def EdgeKind.limit : EdgeKind → Option Nat
  | .fallthrough | .jump | .jsrJump | .jsrFallthrough | .ret => some 1
  | .switchE | .exception => none

/-- An edge.  `payload` stands in for the extra fields that feed the
Python `__eq__`/`__hash__` (instruction, switch value, exception
priority/throwable) and distinguishes parallel edges of one kind. -/
structure GEdge where
  src : Int
  dst : Option Int
  kind : EdgeKind
  payload : Nat
  deriving DecidableEq, Repr

def returnLabel : Int := -1

def rethrowLabel : Int := -2

/-- `set.add` on a duplicate-free list. -/
def insertEdge (l : List GEdge) (e : GEdge) : List GEdge :=
  if e ∈ l then l else l ++ [e]

/-- `dict.setdefault(label, block)` on the label list. -/
def insertLabel (l : List Int) (b : Int) : List Int :=
  if b ∈ l then l else l ++ [b]

structure CFGraph where
  blocks : List Int
  entry : Option Int
  forward : List (Int × List GEdge)
  backward : List (Int × List GEdge)
  /-- `_opaque_edges`: edges whose target is not yet known. -/
  unresolved : List GEdge
  deriving DecidableEq, Repr

/-- `Graph.__init__`: the entry, return and rethrow blocks are added
with `check=False`. -/
def CFGraph.init (entry : Int) : CFGraph :=
  { blocks := [entry, returnLabel, rethrowLabel],
    entry := some entry,
    forward := [(entry, []), (returnLabel, []), (rethrowLabel, [])],
    backward := [(entry, []), (returnLabel, []), (rethrowLabel, [])],
    unresolved := [] }

def CFGraph.fwdOf (g : CFGraph) (b : Int) : List GEdge :=
  (alookup g.forward b).getD []

def CFGraph.bwdOf (g : CFGraph) (b : Int) : List GEdge :=
  (alookup g.backward b).getD []

/-- `Graph._add(block)` (`check=True`): an existing label returns
early; otherwise the block is registered with empty edge sets. -/
def CFGraph.addBlock (g : CFGraph) (b : Int) : CFGraph :=
  if b ∈ g.blocks then g
  else { g with blocks := g.blocks ++ [b],
                forward := aset g.forward b [],
                backward := aset g.backward b [] }

/-- `Graph._disconnect(edge)`: re-register both endpoint blocks
(`_blocks.setdefault`), then discard the edge from the source's
forward set and the target's backward set (both tolerant of absence).
An unknown-target edge is removed from `_opaque_edges` instead; for
such an edge the source would raise `AttributeError` at
`edge.to.label`, which no claim exercises — the `setdefault` on the
target is skipped here. -/
def CFGraph.disconnect (g : CFGraph) (e : GEdge) : CFGraph :=
  { blocks :=
      (match e.dst with
       | some d => insertLabel (insertLabel g.blocks e.src) d
       | none => insertLabel g.blocks e.src),
    entry := g.entry,
    forward :=
      (match alookup g.forward e.src with
       | some l => aset g.forward e.src (l.filter (fun x => x ≠ e))
       | none => g.forward),
    backward :=
      (match e.dst with
       | some d =>
         match alookup g.backward d with
         | some l => aset g.backward d (l.filter (fun x => x ≠ e))
         | none => g.backward
       | none => g.backward),
    unresolved :=
      (match e.dst with
       | none => g.unresolved.filter (fun x => x ≠ e)
       | some _ => g.unresolved) }

/-- `Graph._remove(block)` (via the public `remove`, `check=True`):
refuse the return/rethrow blocks and unknown labels; delete the label,
clear the entry pointer when removing the entry block, pop the forward
edge set (`KeyError` when absent) and disconnect each of its edges. -/
def CFGraph.removeBlock (g : CFGraph) (b : Int) : Except String CFGraph :=
  if b = returnLabel ∨ b = rethrowLabel then
    .error "Cannot remove block."
  else if b ∉ g.blocks then
    .error "Block is not in the graph."
  else
    let g1 := { g with blocks := g.blocks.filter (fun x => x ≠ b) }
    let g2 := if g1.entry = some b then { g1 with entry := none } else g1
    match alookup g2.forward b with
    | none => .error "KeyError"
    | some edges =>
      let g3 := { g2 with forward := g2.forward.filter (fun p => p.1 ≠ b) }
      .ok (edges.foldl CFGraph.disconnect g3)

/-- The backward/opaque registration at the end of `_connect`. -/
def CFGraph.finishConnect (g : CFGraph) (e : GEdge) : CFGraph :=
  match e.dst with
  | some d => { g with backward := aset g.backward d (insertEdge (g.bwdOf d) e) }
  | none => { g with unresolved := insertEdge g.unresolved e }

/-- `Graph.connect(edge, overwrite)` → `_connect(edge, overwrite,
check=True)`: structural checks; register the endpoint blocks; then,
for a limited edge kind, collect the same-class conflicts
(`edge_.__class__ is edge.__class__`) and either refuse, or (on
`overwrite`) disconnect them all, before adding the edge. -/
def CFGraph.connect (g : CFGraph) (e : GEdge) (overwrite : Bool) :
    Except String CFGraph :=
  if e.dst = g.entry then
    .error "Cannot create an edge to the entry block."
  else if e.src = returnLabel then
    .error "Cannot create an edge from the return block."
  else if e.src = rethrowLabel then
    .error "Cannot create an edge from the rethrow block."
  else
    let g1 := g.addBlock e.src
    let g2 := match e.dst with
      | some d => g1.addBlock d
      | none => g1
    match e.kind.limit with
    | none =>
      .ok (CFGraph.finishConnect
        { g2 with forward := aset g2.forward e.src (insertEdge (g2.fwdOf e.src) e) } e)
    | some lim =>
      let conflicts := (g2.fwdOf e.src).filter (fun x => x.kind = e.kind)
      if conflicts.length ≥ lim then
        if overwrite then
          let g3 := conflicts.foldl CFGraph.disconnect g2
          .ok (CFGraph.finishConnect
            { g3 with forward := aset g3.forward e.src (insertEdge (g3.fwdOf e.src) e) } e)
        else .error "Cannot add edge, limit reached. Use overwrite=True."
      else
        .ok (CFGraph.finishConnect
          { g2 with forward := aset g2.forward e.src (insertEdge (g2.fwdOf e.src) e) } e)

/-- How many forward edges of kind `k` leave block `b`. -/
def CFGraph.kindCount (g : CFGraph) (b : Int) (k : EdgeKind) : Nat :=
  ((g.fwdOf b).filter (fun x => x.kind = k)).length

/-- The per-kind limit invariant the claim asserts. -/
def CFGraph.LimitInv (g : CFGraph) : Prop :=
  ∀ b k n, EdgeKind.limit k = some n → g.kindCount b k ≤ n

/-- Edges are filed under their own source block — true of every graph
built through the API (`_connect` adds to `_forward_edges[edge.from_]`). -/
def CFGraph.FwdOk (g : CFGraph) : Prop :=
  ∀ b, ∀ e ∈ g.fwdOf b, e.src = b

/-- A concrete fallthrough edge out of block 0, pre-installed in
`gW7` to exercise the limit-reached path of `connect`. -/
def eW7 : GEdge := ⟨0, some 1, EdgeKind.fallthrough, 0⟩

/-- A second fallthrough edge out of block 0, competing with `eW7`. -/
def eW7b : GEdge := ⟨0, some 2, EdgeKind.fallthrough, 1⟩

/-- A concrete graph holding the single fallthrough edge `eW7`. -/
def gW7 : CFGraph :=
  { blocks := [0, 1, returnLabel, rethrowLabel],
    entry := some 0,
    forward := [(0, [eW7])],
    backward := [(1, [eW7])],
    unresolved := [] }

/-! ### Wide-jump substitution in `_write_block` -/

/-- The jump instruction carried by a `JumpEdge`, as `_write_block`
distinguishes it: `goto`, `jsr`, their wide variants, or a conditional
branch (`ConditionalJumpInstruction`) identified by its opcode. -/
inductive JumpInsn where
  | goto
  | gotoW
  | jsr
  | jsrW
  | conditional (op : Nat)
  deriving DecidableEq, Repr

/-- `isinstance(jump_instruction, ConditionalJumpInstruction)`. -/
def JumpInsn.isConditional : JumpInsn → Bool
  | .conditional _ => true
  | _ => false

/-- The wide-jump adjustment branch of `_write_block` (part_010 lines
244-260): when the target's offset is already known (`offsets_ is not
None`), the displacement underflows a 16-bit branch (`delta <= -32768`)
and the instruction is not already a `goto_w`, a conditional branch
raises `NotImplementedError`, while (if the target block is known) a
`jsr` becomes `jsr_w` and anything else becomes `goto_w`.  Otherwise
the instruction is left alone. -/
def adjustWideJump (offsetsKnown : Bool) (delta : Int) (toKnown : Bool)
    (insn : JumpInsn) : Except String JumpInsn :=
  if offsetsKnown = true ∧ delta ≤ -32768 ∧ insn ≠ JumpInsn.gotoW then
    if insn.isConditional then
      .error "Wide conditional substitution is not yet implemented."
    else if toKnown then
      if insn = JumpInsn.jsr then .ok JumpInsn.jsrW
      else .ok JumpInsn.gotoW
    else .ok insn
  else .ok insn

/-! ### The temporary intermediary blocks of `assemble` -/

/-- The jump edge 0 → 1 a user placed in the graph before assembly. -/
def userJumpEdge : GEdge := ⟨0, some 1, EdgeKind.jump, 0⟩

/-- The goto_w edge that `graph.jump(intermediary, edge.to,
instructions.goto_w)` installs for the intermediary block 65335
(`InsnBlock(65336 - len(temporary))` with one temporary so far). -/
def interEdge : GEdge := ⟨65335, some 1, EdgeKind.jump, 2⟩

/-- The graph before assembly: the entry graph plus the user's jump
edge 0 → 1. -/
def gPre : CFGraph :=
  ((CFGraph.init 0).connect userJumpEdge true).toOption.getD (CFGraph.init 0)

/-- The graph while `_write_block` is laying out blocks: the
intermediary block 65335 has been created and connected to the jump
target with a `goto_w` edge. -/
def gMid : CFGraph :=
  (gPre.connect interEdge true).toOption.getD gPre

/-- The graph after `assemble`'s cleanup loop `for block in temporary:
self.remove(block)` has removed the intermediary block. -/
def gPost : CFGraph :=
  (gMid.removeBlock 65335).toOption.getD gMid

theorem alookup_aset_self {α β : Type} [DecidableEq α]
    (l : List (α × β)) (k : α) (v : β) : alookup (aset l k v) k = some v := by
  induction l with
  | nil => simp [aset, alookup]
  | cons p rest ih =>
    obtain ⟨k', v'⟩ := p
    by_cases h : k = k' <;> simp [aset, alookup, h, ih]

theorem alookup_aset_other {α β : Type} [DecidableEq α]
    (l : List (α × β)) (k k' : α) (v : β) (h : k' ≠ k) :
    alookup (aset l k v) k' = alookup l k' := by
  induction l with
  | nil => simp [aset, alookup, h]
  | cons p rest ih =>
    obtain ⟨k'', v''⟩ := p
    by_cases hk : k = k''
    · subst hk
      simp [aset, alookup, h]
    · by_cases hk' : k' = k'' <;> simp [aset, alookup, hk, hk', ih]

theorem alookup_aset_succ {β : Type} (l : List (Nat × β)) (i : Nat) (v : β) :
    alookup (aset l (i + 1) v) i = alookup l i :=
  alookup_aset_other l (i + 1) i v (by omega)

/-- Keys present after an overwrite: the new key or an old key. -/
theorem aset_keys {α β : Type} [DecidableEq α]
    (l : List (α × β)) (k : α) (v : β) (p : α × β) (hp : p ∈ aset l k v) :
    p.1 = k ∨ p ∈ l := by
  induction l with
  | nil => simp [aset] at hp; simp [hp]
  | cons q rest ih =>
    obtain ⟨k', v'⟩ := q
    by_cases h : k = k'
    · subst h
      simp [aset] at hp
      rcases hp with h | h
      · left; simp [h]
      · right; simp [h]
    · simp [aset, h] at hp
      rcases hp with h' | h'
      · right; simp [h']
      · rcases ih h' with h'' | h''
        · left; exact h''
        · right; simp [h'']

theorem ConstantPool.empty_wf : ConstantPool.WF ConstantPool.empty := by
  intro c i h
  simp [ConstantPool.empty, alookup] at h

theorem ConstantPool.add_wf (P : ConstantPool) (c : Constant) (hwf : P.WF) :
    (P.add c).1.WF := by
  unfold ConstantPool.add
  cases hA : c.asIndex with
  | some i => exact hwf
  | none =>
    cases hb : alookup P.backward c with
    | some i => exact hwf
    | none =>
      dsimp only
      intro c' i' h'
      by_cases hc : c' = c
      · subst hc
        rw [alookup_aset_self] at h'
        cases h'
        refine ⟨alookup_aset_self .., ?_⟩
        split <;> (dsimp only; omega)
      · rw [alookup_aset_other _ _ _ _ hc] at h'
        obtain ⟨hf, hlt⟩ := hwf c' i' h'
        constructor
        · rw [alookup_aset_other _ _ _ _ (by omega : i' ≠ P.index)]
          exact hf
        · split <;> (dsimp only; omega)

/-! ## Claim theorems: constant pool and codec -/

/-- C1 (counterexample): the claim quantifies over *every* constant
`c`, but `add` treats `Index` constants as a no-op that returns their
own value.  In a pool whose slot 1 holds `UTF8("a")`, `add(Index(1))`
returns 1 while `get(1)` is `UTF8("a")`, not `Index(1)`. -/
theorem pool_add_index_counterexample :
    ((ConstantPool.empty.add (.utf8 [97])).1.add (.index 1)).2 = 1 ∧
      ¬(((ConstantPool.empty.add (.utf8 [97])).1.add (.index 1)).1.get 1 =
        .index 1) := by
  decide

/-- C1 (amended): for every coherent pool `P` and every non-`Index`
constant `c`, if `(P', i) = P.add c` then `P'.get i = c` and a second
`add` of `c` returns the same index with the pool unchanged; adding an
`Index(j)` is a no-op that returns `j`. -/
theorem pool_add_get_dedup_stable (P : ConstantPool) (c : Constant)
    (hwf : P.WF) (hc : c.isIndex = false) :
    (P.add c).1.get (P.add c).2 = c ∧
      (P.add c).1.add c = ((P.add c).1, (P.add c).2) ∧
      ∀ j, P.add (.index j) = (P, j) := by
  have hA : c.asIndex = none := by
    cases c <;> simp_all [Constant.isIndex, Constant.asIndex]
  refine ⟨?_, ?_, fun j => by simp [ConstantPool.add, Constant.asIndex]⟩
  · unfold ConstantPool.add
    rw [hA]
    dsimp only
    cases hb : alookup P.backward c with
    | some i =>
      obtain ⟨hf, _⟩ := hwf c i hb
      simp [ConstantPool.get, hf]
    | none =>
      simp [ConstantPool.get, alookup_aset_self]
  · conv_lhs => rw [ConstantPool.add]
    rw [hA]
    dsimp only
    cases hb : alookup P.backward c with
    | some i =>
      simp only [ConstantPool.add, hA, hb]
    | none =>
      simp only [ConstantPool.add, hA, hb, alookup_aset_self]

/-- C1 (witness): the amended theorem applied to the empty pool and a
concrete `UTF8` constant. -/
theorem pool_add_get_dedup_stable_witness :
    (ConstantPool.empty.add (.utf8 [104])).1.get
        (ConstantPool.empty.add (.utf8 [104])).2 = .utf8 [104] ∧
      (ConstantPool.empty.add (.utf8 [104])).1.add (.utf8 [104]) =
        ((ConstantPool.empty.add (.utf8 [104])).1,
          (ConstantPool.empty.add (.utf8 [104])).2) ∧
      ∀ j, ConstantPool.empty.add (.index j) = (ConstantPool.empty, j) :=
  pool_add_get_dedup_stable ConstantPool.empty (.utf8 [104])
    ConstantPool.empty_wf rfl

/-- C3 (counterexample): a pool whose slot 1 is a self-referential
`Class` constant and whose slot 2 is an ordinary `UTF8` constant.  The
resolution pass raises `ValueError("Recursive constant at index 1.")`
and aborts: no `Index(1)` placeholder is substituted and slot 2 is
never delivered (the claim says the reader emits a `RecursiveConstant`
diagnostic, substitutes a placeholder and completes the pool). -/
theorem pool_read_recursive_counterexample :
    resolvePool [(1, .classRef 1), (2, .direct (.utf8 [97]))] =
      .error "Recursive constant at index 1." := by
  rfl

/-- C3 (amended): when `dynamic_deref` re-enters an index that is
already on the current resolution stack, it raises
`ValueError("Recursive constant at index i.")`; the exception
propagates out of `read` (there is no handler), aborting the read with
no placeholder substitution. -/
theorem deref_reentry_raises (lookups : List (Nat × RawConstant))
    (fuel i : Nat) (visited : List Nat) (hf : 0 < fuel) (h : i ∈ visited) :
    dynamicDeref lookups fuel i visited =
      .error ("Recursive constant at index " ++ toString i ++ ".") := by
  cases fuel with
  | zero => omega
  | succ n => simp [dynamicDeref, h]

/-- C3 (witness): re-entry of index 1 with index 1 on the stack. -/
theorem deref_reentry_raises_witness :
    dynamicDeref [(1, .classRef 1)] 1 1 [1] =
      .error ("Recursive constant at index " ++ toString 1 ++ ".") :=
  deref_reentry_raises [(1, .classRef 1)] 1 1 [1] (by decide) (by decide)

/-- C4 (counterexample): the spec says supplementary code points are
CESU-8 surrogate pairs, but `UTF8.write` uses CPython's standard UTF-8
encoder: U+10000 becomes the four bytes `F0 90 80 80`, not the CESU-8
six bytes `ED A0 80 ED B0 80`. -/
theorem utf8_write_not_cesu8 :
    UTF8.writeBytes [0x10000] = [0xF0, 0x90, 0x80, 0x80] ∧
      cesu8EncodeSupplementary 0x10000 =
        [0xED, 0xA0, 0x80, 0xED, 0xB0, 0x80] ∧
      ¬UTF8.writeBytes [0x10000] = cesu8EncodeSupplementary 0x10000 := by
  decide

/-- C4 (amended): writing encodes U+0000 as the two bytes `C0 80` and
a supplementary code point as its standard four-byte UTF-8 sequence
(not CESU-8); reading decodes `C0 80` back to U+0000 and skips
ill-formed byte sequences instead of failing. -/
theorem utf8_codec_modified (s : List Nat) (c : Nat) (hc : 0x10000 ≤ c) :
    UTF8.writeBytes (0 :: s) = 0xC0 :: 0x80 :: UTF8.writeBytes s ∧
      UTF8.writeBytes [c] = utf8EncodeChar c ∧
      (utf8EncodeChar c).length = 4 ∧
      UTF8.readString [0xC0, 0x80] = [0] ∧
      UTF8.readString [0x41, 0xFF, 0x42] = [0x41, 0x42] := by
  have h1 : ¬c ≤ 0x7F := by omega
  have h2 : ¬c ≤ 0x7FF := by omega
  have h3 : ¬c ≤ 0xFFFF := by omega
  refine ⟨?_, ?_, ?_, by rfl, by rfl⟩
  · simp [UTF8.writeBytes, utf8EncodeChar]
  · simp only [UTF8.writeBytes, utf8EncodeChar, h1, h2, h3, if_false,
      List.flatMap_cons, List.flatMap_nil, List.append_nil]
    have e1 : ¬(0xF0 + c / 262144 = 0) := by omega
    have e2 : ¬(0x80 + c / 4096 % 64 = 0) := by omega
    have e3 : ¬(0x80 + c / 64 % 64 = 0) := by omega
    have e4 : ¬(0x80 + c % 64 = 0) := by omega
    simp [e1, e2, e3, e4]
  · simp [utf8EncodeChar, h1, h2, h3]

/-- C4 (witness): the amended theorem at `s = []`, `c = U+10000`. -/
theorem utf8_codec_modified_witness :
    UTF8.writeBytes [0] = [0xC0, 0x80] ∧
      UTF8.writeBytes [0x10000] = utf8EncodeChar 0x10000 ∧
      (utf8EncodeChar 0x10000).length = 4 ∧
      UTF8.readString [0xC0, 0x80] = [0] ∧
      UTF8.readString [0x41, 0xFF, 0x42] = [0x41, 0x42] := by
  have h := utf8_codec_modified [] 0x10000 (by decide)
  simpa [UTF8.writeBytes] using h

/-- C2: `Trace.from_graph` keeps running maxima starting at 0 and takes
the frame's maxima after the (single) block: the resulting trace has
`max_stack = 2` and `max_locals = 2`. -/
theorem trace_add_method_maxima :
    max 0 addMethodFrame.maxStack = 2 ∧ max 0 addMethodFrame.maxLocals = 2 := by
  decide

/-- C5: traversing an exception edge clears the stack, reports
`INVALID_TYPE` exactly when the declared throwable does not merge into
`java/lang/Throwable`, and pushes the (merged) throwable — so the
handler's entry frame always has exactly one entry on the stack. -/
theorem exception_edge_frame (ck : TypeChecker) (f : Frame) (t : VType) :
    ∃ f', setupEdgeFrame ck f (.exceptionE t) = some f' ∧
      f'.stack.length = 1 ∧
      f'.stack.head?.map Entry.ty = some (ck.mergeFallback throwableT t throwableT) ∧
      (ck.checkMerge throwableT t = true → f'.errors = f.errors) ∧
      (ck.checkMerge throwableT t = false →
        f'.errors = f.errors ++ [ErrKind.invalidType]) := by
  refine ⟨{ f with
      stack := [.base f.nextId (ck.mergeFallback throwableT t throwableT) none],
      nextId := f.nextId + 1,
      errors := f.errors ++
        (if ck.checkMerge throwableT t then [] else [ErrKind.invalidType]) },
    rfl, rfl, by simp [Entry.ty], ?_, ?_⟩
  · intro h
    simp [h]
  · intro h
    simp [h]

/-- C5 (witness): the theorem at the basic checker, the empty frame and
`java/lang/Throwable` itself. -/
theorem exception_edge_frame_witness :
    ∃ f', setupEdgeFrame basicChecker Frame.empty (.exceptionE throwableT) =
        some f' ∧
      f'.stack.length = 1 ∧
      f'.stack.head?.map Entry.ty =
        some (basicChecker.mergeFallback throwableT throwableT throwableT) ∧
      (basicChecker.checkMerge throwableT throwableT = true →
        f'.errors = Frame.empty.errors) ∧
      (basicChecker.checkMerge throwableT throwableT = false →
        f'.errors = Frame.empty.errors ++ [ErrKind.invalidType]) :=
  exception_edge_frame basicChecker Frame.empty throwableT

/-! ## Claim theorems: `Frame.set` (C6) -/

/-- C6 (counterexample): `set` returns early — recording nothing — when
the local already `==` the entry: two identical `set(0, e)` calls leave
a single write access, refuting "every call appends a write access". -/
theorem frame_set_skips_access_counterexample :
    ((Frame.empty.setE basicChecker 0 (.base 5 .int none) (.ty .top)).setE
        basicChecker 0 (.base 5 .int none) (.ty .top)) =
      Frame.empty.setE basicChecker 0 (.base 5 .int none) (.ty .top) ∧
    ((Frame.empty.setE basicChecker 0 (.base 5 .int none) (.ty .top)).setE
        basicChecker 0 (.base 5 .int none) (.ty .top)).accesses.length = 1 := by
  decide

/-- C6 (amended): unless the local at `index` already equals the entry
under Python `Entry.__eq__` (in which case `set` is a no-op), `set`
appends exactly one write access for `index` carrying the stored
(possibly cast) entry, stores that entry at `index`, and stores a `top`
sentinel at `index + 1` when the stored entry's type is category 2. -/
theorem frame_set_access_and_wide (ck : TypeChecker) (f : Frame)
    (index : Nat) (e : Entry) (expect : Expect)
    (h : ∀ l, alookup f.locals index = some l → l.pyEq e = false) :
    (∃ e', (f.setE ck index e expect).accesses =
        f.accesses ++ [(false, index, e')] ∧
      alookup (f.setE ck index e expect).locals index = some e' ∧
      (e'.ty.internalSize > 1 →
        alookup (f.setE ck index e expect).locals (index + 1) = some topEntry)) ∧
    (∀ (g : Frame) (l : Entry), alookup g.locals index = some l →
      l.pyEq e = true → g.setE ck index e expect = g) := by
  constructor
  · have hskip : (match alookup f.locals index with
        | some l => l.pyEq e
        | none => false) = false := by
      cases hl : alookup f.locals index with
      | some l => exact h l hl
      | none => rfl
    unfold Frame.setE
    rw [hskip]
    simp only [Bool.false_eq_true, if_false]
    refine ⟨if (checkType ck expect e true).1 then e
        else e.mkCast f.nextId (ck.mergeT expect.toType e.ty), ?_, ?_, ?_⟩
    · simp [apply_ite (Frame.accesses)]
    · by_cases hw : (if (checkType ck expect e true).1 then e
          else e.mkCast f.nextId (ck.mergeT expect.toType e.ty)).ty.internalSize > 1 <;>
        simp [hw, apply_ite (Frame.locals), alookup_aset_self, alookup_aset_succ]
    · intro hgt
      simp [hgt, apply_ite (Frame.locals), alookup_aset_self]
  · intro g l hl heq
    unfold Frame.setE
    rw [hl]
    simp [heq]

/-- `popLoop` never touches the maxima or the locals and never grows
the stack. -/
theorem popLoop_fields (ck : TypeChecker) (expect : Expect) (n : Nat)
    (f : Frame) :
    (Frame.popLoop ck expect f n).2.2.maxStack = f.maxStack ∧
    (Frame.popLoop ck expect f n).2.2.maxLocals = f.maxLocals ∧
    (Frame.popLoop ck expect f n).2.2.locals = f.locals ∧
    (Frame.popLoop ck expect f n).2.2.stack.length ≤ f.stack.length := by
  induction n generalizing f with
  | zero => simp [Frame.popLoop]
  | succ n ih =>
    cases hs : f.stack with
    | nil =>
      have hih := ih f
      have h4 := hih.2.2.2
      rw [hs] at h4
      simp only [Frame.popLoop, hs]
      exact ⟨hih.1, hih.2.1, hih.2.2.1, h4⟩
    | cons e rest =>
      simp only [Frame.popLoop, hs]
      exact ⟨(ih _).1, (ih _).2.1, (ih _).2.2.1,
        le_trans (ih _).2.2.2 (Nat.le_succ _)⟩

/-- No frame operation (or copy) lowers `max_stack` or `max_locals`. -/
theorem frameOp_mono (ck : TypeChecker) (g : Frame) (op : FrameOp) :
    g.maxStack ≤ (op.apply ck g).maxStack ∧
      g.maxLocals ≤ (op.apply ck g).maxLocals := by
  cases op with
  | push t v =>
    simp [FrameOp.apply, Frame.pushT, Frame.pushEntry, Nat.le_max_left]
  | pushE e =>
    simp [FrameOp.apply, Frame.pushEntry, Nat.le_max_left]
  | pop expect =>
    cases hs : g.stack <;> simp [FrameOp.apply, Frame.pop1, hs]
  | popN n expect =>
    have h := popLoop_fields ck expect n g
    simp [FrameOp.apply, Frame.popN, h.1, h.2.1]
  | dup d =>
    by_cases hd : d = 0
    · cases hs : g.stack <;>
        simp [FrameOp.apply, Frame.dup, hs, hd, Nat.le_max_left]
    · simp [FrameOp.apply, Frame.dup, hd, Nat.le_max_left]
  | dup2 d =>
    by_cases hd : d = 0 <;>
      simp [FrameOp.apply, Frame.dup2, hd, Nat.le_max_left]
  | swap =>
    rcases hs : g.stack with _ | ⟨b, _ | ⟨a, rest⟩⟩ <;>
      simp [FrameOp.apply, Frame.swap, hs]
  | get i expect =>
    cases hl : alookup g.locals i <;> simp [FrameOp.apply, Frame.get, hl]
  | set i e expect =>
    simp only [FrameOp.apply]
    unfold Frame.setE
    split
    · simp
    · simp [Nat.le_max_left]
  | setT i t v expect =>
    simp only [FrameOp.apply]
    unfold Frame.setT Frame.setE
    split
    · simp
    · simp [Nat.le_max_left]
  | replace old t =>
    simp [FrameOp.apply, Frame.replace]
  | copy deep =>
    simp [FrameOp.apply, Frame.copy]

/-- `set` preserves the size bounds: either it is a no-op, or it
stores at `index` (and `index + 1` when wide) and raises `max_locals`
past the last slot written. -/
theorem setE_sizeInv (ck : TypeChecker) (g : Frame) (i : Nat) (e : Entry)
    (expect : Expect) (h : g.SizeInv) :
    (Frame.setE ck g i e expect).SizeInv := by
  obtain ⟨h1, h2⟩ := h
  unfold Frame.setE
  split
  · exact ⟨h1, h2⟩
  · refine ⟨by simpa using h1, ?_⟩
    intro p hpmem
    by_cases hw : (if (checkType ck expect e true).1 then e
        else e.mkCast g.nextId (ck.mergeT expect.toType e.ty)).ty.internalSize > 1
    · simp only [hw, if_true, reduceIte] at hpmem ⊢
      rcases aset_keys _ _ _ _ hpmem with hk | h'
      · rw [hk]; omega
      · rcases aset_keys _ _ _ _ h' with hk | hold
        · rw [hk]; omega
        · have := h2 p hold
          omega
    · simp only [hw, if_false, reduceIte] at hpmem ⊢
      rcases aset_keys _ _ _ _ hpmem with hk | hold
      · rw [hk]; omega
      · have := h2 p hold
        omega

/-- Transfer the locals bound between frames with the same locals and
`max_locals`. -/
theorem locals_bound_of_eq {g g' : Frame}
    (hloc : g'.locals = g.locals) (hml : g'.maxLocals = g.maxLocals)
    (h2 : ∀ p ∈ g.locals, p.1 < g.maxLocals) :
    ∀ p ∈ g'.locals, p.1 < g'.maxLocals := by
  rw [hloc, hml]; exact h2

/-- Each operation preserves `SizeInv`, provided `swap` is not applied
to a stack with fewer than two entries (its underflow recovery appends
a `top` sentinel without updating `max_stack`). -/
theorem frameOp_inv (ck : TypeChecker) (g : Frame) (op : FrameOp)
    (h : g.SizeInv) (hs : op = .swap → 2 ≤ g.stack.length) :
    (op.apply ck g).SizeInv := by
  obtain ⟨h1, h2⟩ := h
  cases op with
  | push t v =>
    exact ⟨Nat.le_max_right _ _, locals_bound_of_eq rfl rfl h2⟩
  | pushE e =>
    exact ⟨Nat.le_max_right _ _, locals_bound_of_eq rfl rfl h2⟩
  | pop expect =>
    cases hst : g.stack with
    | nil =>
      refine ⟨?_, locals_bound_of_eq (by simp [FrameOp.apply, Frame.pop1, hst])
        (by simp [FrameOp.apply, Frame.pop1, hst]) h2⟩
      have h1' := h1
      rw [hst] at h1'
      simp only [List.length_nil] at h1'
      simp [FrameOp.apply, Frame.pop1, hst]
    | cons e rest =>
      refine ⟨?_, locals_bound_of_eq (by simp [FrameOp.apply, Frame.pop1, hst])
        (by simp [FrameOp.apply, Frame.pop1, hst]) h2⟩
      have h1' := h1
      rw [hst] at h1'
      simp only [List.length_cons] at h1'
      simp [FrameOp.apply, Frame.pop1, hst]
      omega
  | popN n expect =>
    have hp := popLoop_fields ck expect n g
    refine ⟨?_, locals_bound_of_eq hp.2.2.1 hp.2.1 h2⟩
    calc (FrameOp.apply ck g (.popN n expect)).stack.length
        = (Frame.popLoop ck expect g n).2.2.stack.length := rfl
      _ ≤ g.stack.length := hp.2.2.2
      _ ≤ g.maxStack := h1
      _ = (FrameOp.apply ck g (.popN n expect)).maxStack := hp.1.symm
  | dup d =>
    by_cases hd : d = 0
    · cases hst : g.stack with
      | nil =>
        refine ⟨?_, locals_bound_of_eq (by simp [FrameOp.apply, Frame.dup, hst, hd])
          (by simp [FrameOp.apply, Frame.dup, hst, hd]) h2⟩
        simp [FrameOp.apply, Frame.dup, hst, hd, Nat.le_max_right]
      | cons e rest =>
        refine ⟨?_, locals_bound_of_eq (by simp [FrameOp.apply, Frame.dup, hst, hd])
          (by simp [FrameOp.apply, Frame.dup, hst, hd]) h2⟩
        simp [FrameOp.apply, Frame.dup, hst, hd, Nat.le_max_right]
    · refine ⟨?_, locals_bound_of_eq (by simp [FrameOp.apply, Frame.dup, hd])
        (by simp [FrameOp.apply, Frame.dup, hd]) h2⟩
      simp only [FrameOp.apply]
      unfold Frame.dup
      rw [if_neg hd]
      exact Nat.le_max_right _ _
  | dup2 d =>
    by_cases hd : d = 0
    · refine ⟨?_, locals_bound_of_eq (by simp [FrameOp.apply, Frame.dup2, hd])
        (by simp [FrameOp.apply, Frame.dup2, hd]) h2⟩
      simp only [FrameOp.apply]
      unfold Frame.dup2
      rw [if_pos hd]
      exact Nat.le_max_right _ _
    · refine ⟨?_, locals_bound_of_eq (by simp [FrameOp.apply, Frame.dup2, hd])
        (by simp [FrameOp.apply, Frame.dup2, hd]) h2⟩
      simp only [FrameOp.apply]
      unfold Frame.dup2
      rw [if_neg hd]
      exact Nat.le_max_right _ _
  | swap =>
    have hlen := hs rfl
    rcases hst : g.stack with _ | ⟨b, _ | ⟨a, rest⟩⟩
    · rw [hst] at hlen; simp at hlen
    · rw [hst] at hlen; simp at hlen
    · refine ⟨?_, locals_bound_of_eq (by simp [FrameOp.apply, Frame.swap, hst])
        (by simp [FrameOp.apply, Frame.swap, hst]) h2⟩
      have h1' := h1
      rw [hst] at h1'
      simp only [List.length_cons] at h1'
      simp [FrameOp.apply, Frame.swap, hst]
      omega
  | get i expect =>
    cases hl : alookup g.locals i with
    | none =>
      exact ⟨by simpa [FrameOp.apply, Frame.get, hl] using h1,
        locals_bound_of_eq (by simp [FrameOp.apply, Frame.get, hl])
          (by simp [FrameOp.apply, Frame.get, hl]) h2⟩
    | some e =>
      exact ⟨by simpa [FrameOp.apply, Frame.get, hl] using h1,
        locals_bound_of_eq (by simp [FrameOp.apply, Frame.get, hl])
          (by simp [FrameOp.apply, Frame.get, hl]) h2⟩
  | set i e expect => exact setE_sizeInv ck g i e expect ⟨h1, h2⟩
  | setT i t v expect =>
    exact setE_sizeInv ck { g with nextId := g.nextId + 1 } i _ expect ⟨h1, h2⟩
  | replace old t =>
    refine ⟨by simpa [FrameOp.apply, Frame.replace] using h1, ?_⟩
    intro p hpmem
    simp only [FrameOp.apply, Frame.replace, List.mem_map] at hpmem
    obtain ⟨q, hq, hpq⟩ := hpmem
    have hlt := h2 q hq
    have hfst : p.1 = q.1 := by
      by_cases hqo : q.2 = old
      · simp [hqo] at hpq
        simp [← hpq]
      · simp [hqo] at hpq
        simp [← hpq]
    simpa [FrameOp.apply, Frame.replace, hfst] using hlt
  | copy deep =>
    exact ⟨h1, locals_bound_of_eq rfl rfl h2⟩

/-- The sequence form: under the swap-safety side condition, the size
invariant and the prefix bounds propagate along any operation list. -/
theorem applyAll_bounds (ck : TypeChecker) (ops : List FrameOp) :
    ∀ (f : Frame), f.SizeInv →
      (∀ i, ops[i]? = some .swap →
        2 ≤ (FrameOp.applyAll ck f (ops.take i)).stack.length) →
      f.maxStack ≤ (FrameOp.applyAll ck f ops).maxStack ∧
      f.maxLocals ≤ (FrameOp.applyAll ck f ops).maxLocals ∧
      (FrameOp.applyAll ck f ops).SizeInv ∧
      (∀ i, (FrameOp.applyAll ck f (ops.take i)).stack.length ≤
          (FrameOp.applyAll ck f ops).maxStack) ∧
      (∀ i p, p ∈ (FrameOp.applyAll ck f (ops.take i)).locals →
          p.1 < (FrameOp.applyAll ck f ops).maxLocals) := by
  induction ops with
  | nil =>
    intro f hInv hSwap
    refine ⟨le_refl _, le_refl _, hInv, ?_, ?_⟩
    · intro i
      simpa [FrameOp.applyAll] using hInv.1
    · intro i p hp
      exact hInv.2 p (by simpa [FrameOp.applyAll] using hp)
  | cons op ops ih =>
    intro f hInv hSwap
    have hswap0 : op = .swap → 2 ≤ f.stack.length := by
      intro hop
      have := hSwap 0 (by simp [hop])
      simpa [FrameOp.applyAll] using this
    have hInv1 : (op.apply ck f).SizeInv := frameOp_inv ck f op hInv hswap0
    have hSwap1 : ∀ i, ops[i]? = some .swap →
        2 ≤ (FrameOp.applyAll ck (op.apply ck f) (ops.take i)).stack.length := by
      intro i hi
      have := hSwap (i + 1) (by simpa using hi)
      simpa [FrameOp.applyAll, List.take_succ_cons] using this
    have IH := ih (op.apply ck f) hInv1 hSwap1
    have hmono := frameOp_mono ck f op
    have happly : FrameOp.applyAll ck f (op :: ops) =
        FrameOp.applyAll ck (op.apply ck f) ops := rfl
    rw [happly]
    refine ⟨le_trans hmono.1 IH.1, le_trans hmono.2 IH.2.1, IH.2.2.1, ?_, ?_⟩
    · intro i
      cases i with
      | zero =>
        simpa [FrameOp.applyAll] using le_trans hInv.1 (le_trans hmono.1 IH.1)
      | succ i =>
        have := IH.2.2.2.1 i
        simpa [List.take_succ_cons, FrameOp.applyAll] using this
    · intro i p hp
      cases i with
      | zero =>
        simp only [List.take_zero, FrameOp.applyAll, List.foldl_nil] at hp
        exact lt_of_lt_of_le (hInv.2 p hp) (le_trans hmono.2 IH.2.1)
      | succ i =>
        refine IH.2.2.2.2 i p ?_
        simpa [List.take_succ_cons, FrameOp.applyAll] using hp

/-- C9 (counterexample): `swap` is on the claim's operation list, and
on an empty stack it appends a `top` sentinel without updating
`max_stack` — after the one-operation sequence `[swap]` on the empty
frame, the intermediate (final) stack size 1 exceeds `max_stack = 0`,
so the maxima are not upper bounds of the sizes reached. -/
theorem frame_swap_underflow_counterexample :
    (Frame.empty.swap basicChecker).stack.length = 1 ∧
      (Frame.empty.swap basicChecker).maxStack = 0 := by
  decide

/-- C9 (amended): no frame operation (push, pop, dup, dup2, swap, get,
set, replace) or copy ever lowers `max_stack` or `max_locals`; and
provided every `swap` in the sequence runs on a stack with at least two
entries (swap's underflow recovery appends a `top` sentinel without
updating `max_stack`), the final maxima are upper bounds of every
intermediate stack size and of every occupied local index. -/
theorem frame_max_monotone_bounds (ck : TypeChecker) (ops : List FrameOp)
    (f : Frame) (hInv : f.SizeInv)
    (hSwap : ∀ i, ops[i]? = some .swap →
      2 ≤ (FrameOp.applyAll ck f (ops.take i)).stack.length) :
    (∀ (g : Frame) (op : FrameOp),
      g.maxStack ≤ (op.apply ck g).maxStack ∧
        g.maxLocals ≤ (op.apply ck g).maxLocals) ∧
    (FrameOp.applyAll ck f ops).SizeInv ∧
    (∀ i, (FrameOp.applyAll ck f (ops.take i)).stack.length ≤
        (FrameOp.applyAll ck f ops).maxStack) ∧
    (∀ i p, p ∈ (FrameOp.applyAll ck f (ops.take i)).locals →
        p.1 < (FrameOp.applyAll ck f ops).maxLocals) := by
  have h := applyAll_bounds ck ops f hInv hSwap
  exact ⟨fun g op => frameOp_mono ck g op, h.2.2.1, h.2.2.2.1, h.2.2.2.2⟩

/-- C9 (witness): a concrete safe sequence — two pushes, a swap on the
resulting two-entry stack, then a pop — on the empty frame. -/
theorem frame_max_monotone_bounds_witness :
    (∀ (g : Frame) (op : FrameOp),
      g.maxStack ≤ (op.apply basicChecker g).maxStack ∧
        g.maxLocals ≤ (op.apply basicChecker g).maxLocals) ∧
    (FrameOp.applyAll basicChecker Frame.empty
      [.push .int none, .push .int none, .swap, .pop (.ty .top)]).SizeInv ∧
    (∀ i, (FrameOp.applyAll basicChecker Frame.empty
        ([FrameOp.push .int none, .push .int none, .swap,
          .pop (.ty .top)].take i)).stack.length ≤
      (FrameOp.applyAll basicChecker Frame.empty
        [.push .int none, .push .int none, .swap, .pop (.ty .top)]).maxStack) ∧
    (∀ i p, p ∈ (FrameOp.applyAll basicChecker Frame.empty
        ([FrameOp.push .int none, .push .int none, .swap,
          .pop (.ty .top)].take i)).locals →
      p.1 < (FrameOp.applyAll basicChecker Frame.empty
        [.push .int none, .push .int none, .swap, .pop (.ty .top)]).maxLocals) :=
  frame_max_monotone_bounds basicChecker
    [.push .int none, .push .int none, .swap, .pop (.ty .top)] Frame.empty
    ⟨by simp [Frame.empty], by simp [Frame.empty]⟩
    (by
      intro i hi
      rcases i with _ | _ | _ | _ | i <;> simp at hi
      decide)

/-- C6 (witness): the amended `set` theorem at the empty frame, local 0
and a concrete `int` entry (the locals are empty, so the early-return
test cannot fire). -/
theorem frame_set_access_and_wide_witness :
    (∃ e', (Frame.empty.setE basicChecker 0 (.base 5 .int none)
          (.ty .top)).accesses = Frame.empty.accesses ++ [(false, 0, e')] ∧
      alookup (Frame.empty.setE basicChecker 0 (.base 5 .int none)
          (.ty .top)).locals 0 = some e' ∧
      (e'.ty.internalSize > 1 →
        alookup (Frame.empty.setE basicChecker 0 (.base 5 .int none)
            (.ty .top)).locals (0 + 1) = some topEntry)) ∧
    (∀ (g : Frame) (l : Entry), alookup g.locals 0 = some l →
      l.pyEq (.base 5 .int none) = true →
      g.setE basicChecker 0 (.base 5 .int none) (.ty .top) = g) :=
  frame_set_access_and_wide basicChecker Frame.empty 0 (.base 5 .int none)
    (.ty .top) (by intro l hl; simp [Frame.empty, alookup] at hl)

/-! ### Support lemmas for the edge-limit claim -/

theorem fwdOf_aset_self (g : CFGraph) (b : Int) (l : List GEdge)
    (bw : List (Int × List GEdge)) (un : List GEdge) (bl : List Int)
    (en : Option Int) :
    (CFGraph.mk bl en (aset g.forward b l) bw un).fwdOf b = l := by
  simp [CFGraph.fwdOf, alookup_aset_self]

theorem fwdOf_aset_other (g : CFGraph) (b b' : Int) (l : List GEdge)
    (bw : List (Int × List GEdge)) (un : List GEdge) (bl : List Int)
    (en : Option Int) (h : b' ≠ b) :
    (CFGraph.mk bl en (aset g.forward b l) bw un).fwdOf b' = g.fwdOf b' := by
  simp [CFGraph.fwdOf, alookup_aset_other _ _ _ _ h]

theorem addBlock_of_mem (g : CFGraph) (d : Int) (h : d ∈ g.blocks) :
    g.addBlock d = g := by
  simp [CFGraph.addBlock, h]

theorem addBlock_fwdOf_ne (g : CFGraph) (d b : Int) (h : b ≠ d) :
    (g.addBlock d).fwdOf b = g.fwdOf b := by
  unfold CFGraph.addBlock
  split
  · rfl
  · exact fwdOf_aset_other g d b [] _ _ _ _ h

theorem addBlock_kindCount_le (g : CFGraph) (d b : Int) (k : EdgeKind) :
    (g.addBlock d).kindCount b k ≤ g.kindCount b k := by
  by_cases h : b = d
  · subst h
    unfold CFGraph.addBlock
    split
    · exact le_refl _
    · simp [CFGraph.kindCount, fwdOf_aset_self]
  · rw [CFGraph.kindCount, addBlock_fwdOf_ne g d b h]
    exact le_refl _

theorem addBlock_fwdOk (g : CFGraph) (d : Int) (h : g.FwdOk) :
    (g.addBlock d).FwdOk := by
  intro b e he
  by_cases hb : b = d
  · subst hb
    unfold CFGraph.addBlock at he
    split at he
    · exact h b e he
    · rw [fwdOf_aset_self] at he
      simp at he
  · rw [addBlock_fwdOf_ne g d b hb] at he
    exact h b e he

theorem disconnect_fwdOf_src (g : CFGraph) (c : GEdge) :
    (g.disconnect c).fwdOf c.src = (g.fwdOf c.src).filter (fun x => x ≠ c) := by
  unfold CFGraph.disconnect CFGraph.fwdOf
  cases hf : alookup g.forward c.src with
  | none => simp [hf]
  | some l => simp [alookup_aset_self]

theorem disconnect_fwdOf_other (g : CFGraph) (c : GEdge) (b : Int)
    (h : b ≠ c.src) :
    (g.disconnect c).fwdOf b = g.fwdOf b := by
  unfold CFGraph.disconnect CFGraph.fwdOf
  cases hf : alookup g.forward c.src with
  | none => simp
  | some l => simp [alookup_aset_other _ _ _ _ h]

theorem disconnect_kindCount_le (g : CFGraph) (c : GEdge) (b : Int)
    (k : EdgeKind) : (g.disconnect c).kindCount b k ≤ g.kindCount b k := by
  by_cases h : b = c.src
  · subst h
    rw [CFGraph.kindCount, CFGraph.kindCount, disconnect_fwdOf_src,
      List.filter_comm]
    exact List.length_filter_le _ _
  · rw [CFGraph.kindCount, CFGraph.kindCount, disconnect_fwdOf_other g c b h]

theorem disconnect_fwdOk (g : CFGraph) (c : GEdge) (h : g.FwdOk) :
    (g.disconnect c).FwdOk := by
  intro b e he
  by_cases hb : b = c.src
  · subst hb
    rw [disconnect_fwdOf_src] at he
    exact h _ e (List.mem_of_mem_filter he)
  · rw [disconnect_fwdOf_other g c b hb] at he
    exact h b e he

theorem foldl_disconnect_fwdOf (cs : List GEdge) (g : CFGraph) (s : Int)
    (hsrc : ∀ c ∈ cs, c.src = s) :
    (cs.foldl CFGraph.disconnect g).fwdOf s =
      cs.foldl (fun l c => l.filter (fun x => x ≠ c)) (g.fwdOf s) := by
  induction cs generalizing g with
  | nil => rfl
  | cons c cs ih =>
    simp only [List.foldl_cons]
    rw [ih _ (fun c' hc' => hsrc c' (List.mem_cons_of_mem _ hc'))]
    have hc : c.src = s := hsrc c (List.mem_cons_self _ _)
    rw [← hc, disconnect_fwdOf_src]

theorem foldl_disconnect_kindCount_le (cs : List GEdge) (g : CFGraph)
    (b : Int) (k : EdgeKind) :
    (cs.foldl CFGraph.disconnect g).kindCount b k ≤ g.kindCount b k := by
  induction cs generalizing g with
  | nil => exact le_refl _
  | cons c cs ih =>
    exact le_trans (ih _) (disconnect_kindCount_le g c b k)

theorem foldl_disconnect_fwdOk (cs : List GEdge) (g : CFGraph)
    (h : g.FwdOk) : (cs.foldl CFGraph.disconnect g).FwdOk := by
  induction cs generalizing g with
  | nil => exact h
  | cons c cs ih => exact ih _ (disconnect_fwdOk g c h)

theorem mem_foldl_filter (cs : List GEdge) (l0 : List GEdge) (x : GEdge)
    (hx : x ∈ cs.foldl (fun l c => l.filter (fun y => y ≠ c)) l0) :
    x ∈ l0 ∧ ∀ c ∈ cs, x ≠ c := by
  induction cs generalizing l0 with
  | nil => exact ⟨hx, by simp⟩
  | cons c cs ih =>
    simp only [List.foldl_cons] at hx
    obtain ⟨hx1, hx2⟩ := ih _ hx
    refine ⟨List.mem_of_mem_filter hx1, ?_⟩
    intro c' hc'
    rcases List.mem_cons.mp hc' with rfl | hc'
    · have := List.of_mem_filter hx1
      simpa using this
    · exact hx2 c' hc'

theorem finishConnect_fwdOf (g : CFGraph) (e : GEdge) (b : Int) :
    (g.finishConnect e).fwdOf b = g.fwdOf b := by
  unfold CFGraph.finishConnect
  cases e.dst <;> rfl

theorem finishConnect_kindCount (g : CFGraph) (e : GEdge) (b : Int)
    (k : EdgeKind) : (g.finishConnect e).kindCount b k = g.kindCount b k := by
  rw [CFGraph.kindCount, CFGraph.kindCount, finishConnect_fwdOf]

theorem finishConnect_fwdOk (g : CFGraph) (e : GEdge) (h : g.FwdOk) :
    (g.finishConnect e).FwdOk := by
  intro b e' he
  rw [finishConnect_fwdOf] at he
  exact h b e' he

/-- Filtering for a kind after `insertEdge`: the count rises by at most
one, and only for the edge's own kind. -/
theorem insertEdge_kind_filter (l : List GEdge) (e : GEdge) (k : EdgeKind) :
    ((insertEdge l e).filter (fun x => x.kind = k)).length ≤
      (l.filter (fun x => x.kind = k)).length +
        (if e.kind = k then 1 else 0) := by
  unfold insertEdge
  split
  · split <;> omega
  · rw [List.filter_append]
    simp only [List.length_append]
    split <;> simp_all

theorem insertEdge_kind_filter_ne (l : List GEdge) (e : GEdge) (k : EdgeKind)
    (h : e.kind ≠ k) :
    ((insertEdge l e).filter (fun x => x.kind = k)).length =
      (l.filter (fun x => x.kind = k)).length := by
  unfold insertEdge
  split
  · rfl
  · rw [List.filter_append]
    simp [h]

theorem limit_is_one (k : EdgeKind) (n : Nat) (h : k.limit = some n) :
    n = 1 := by
  cases k <;> simp_all [EdgeKind.limit]

theorem connect_result_kindCount (g2 : CFGraph) (e : GEdge) (b : Int)
    (k : EdgeKind) :
    (CFGraph.finishConnect
      { g2 with
        forward := aset g2.forward e.src (insertEdge (g2.fwdOf e.src) e) }
      e).kindCount b k =
      if b = e.src then
        ((insertEdge (g2.fwdOf e.src) e).filter (fun x => x.kind = k)).length
      else g2.kindCount b k := by
  rw [finishConnect_kindCount]
  by_cases hb : b = e.src
  · subst hb
    simp [CFGraph.kindCount, CFGraph.fwdOf, alookup_aset_self]
  · simp [CFGraph.kindCount, CFGraph.fwdOf,
      alookup_aset_other _ _ _ _ hb, hb]

theorem connect_result_fwdOk (g2 : CFGraph) (e : GEdge) (h : g2.FwdOk) :
    (CFGraph.finishConnect
      { g2 with
        forward := aset g2.forward e.src (insertEdge (g2.fwdOf e.src) e) }
      e).FwdOk := by
  apply finishConnect_fwdOk
  intro b e' he
  by_cases hb : b = e.src
  · subst hb
    rw [fwdOf_aset_self] at he
    unfold insertEdge at he
    split at he
    · exact h _ _ he
    · rcases List.mem_append.mp he with h' | h'
      · exact h _ _ h'
      · simp at h'
        subst h'
        rfl
  · rw [fwdOf_aset_other _ _ _ _ _ _ _ _ hb] at he
    exact h b e' he

/-- The common shape of every successful `_connect`: the LimitInv and
FwdOk invariants carry over, given the bound on the new edge's own kind
at its source block. -/
theorem connect_ok_preserves (g2 : CFGraph) (e : GEdge)
    (hInv2 : ∀ b k n, EdgeKind.limit k = some n → g2.kindCount b k ≤ n)
    (hOk2 : g2.FwdOk)
    (hkind : ∀ n, e.kind.limit = some n →
      ((insertEdge (g2.fwdOf e.src) e).filter
        (fun x => x.kind = e.kind)).length ≤ n) :
    (CFGraph.finishConnect
      { g2 with
        forward := aset g2.forward e.src (insertEdge (g2.fwdOf e.src) e) }
      e).LimitInv ∧
    (CFGraph.finishConnect
      { g2 with
        forward := aset g2.forward e.src (insertEdge (g2.fwdOf e.src) e) }
      e).FwdOk := by
  refine ⟨?_, connect_result_fwdOk g2 e hOk2⟩
  intro b k n hn
  rw [connect_result_kindCount]
  by_cases hb : b = e.src
  · rw [if_pos hb]
    by_cases hk : e.kind = k
    · subst hk
      exact hkind n hn
    · rw [insertEdge_kind_filter_ne _ _ _ hk]
      exact hInv2 e.src k n hn
  · rw [if_neg hb]
    exact hInv2 b k n hn

/-- After erasing every same-kind conflict, the source's forward set
holds no edge of that kind. -/
theorem foldl_filter_conflicts_nil (l : List GEdge) (k : EdgeKind) :
    (((l.filter (fun x => x.kind = k)).foldl
        (fun l' c => l'.filter (fun y => y ≠ c)) l).filter
      (fun x => x.kind = k)) = [] := by
  rw [List.filter_eq_nil_iff]
  intro x hx
  obtain ⟨hx1, hx2⟩ := mem_foldl_filter _ _ x hx
  intro hk
  exact absurd rfl (hx2 x (List.mem_filter.mpr ⟨hx1, by simpa using hk⟩))

/-- Inserting the new edge into a set free of its kind leaves exactly
one edge of that kind. -/
theorem insertEdge_filter_singleton (l : List GEdge) (e : GEdge)
    (h : l.filter (fun x => x.kind = e.kind) = []) :
    (insertEdge l e).filter (fun x => x.kind = e.kind) = [e] := by
  have hnot : e ∉ l := by
    intro hmem
    have : e ∈ l.filter (fun x => x.kind = e.kind) :=
      List.mem_filter.mpr ⟨hmem, by simp⟩
    rw [h] at this
    simp at this
  unfold insertEdge
  rw [if_neg hnot, List.filter_append, h]
  simp

/-- C7: `connect` enforces the per-kind limits.  For a graph whose
forward sets respect the limits (and file edges under their own
source), (1) every successful `connect` preserves that; (2) an edge of
an unlimited kind (switch, exception) is always accepted when the
structural checks pass; (3) for a limited kind whose limit is already
reached at the source block, `connect` without `overwrite` raises,
while `connect` with `overwrite` removes the conflicting edges and
leaves exactly the new edge of that kind. -/
theorem connect_edge_limits (g : CFGraph) (e : GEdge)
    (hInv : g.LimitInv) (hOk : g.FwdOk) :
    (∀ (ow : Bool) (g' : CFGraph), g.connect e ow = .ok g' →
      g'.LimitInv ∧ g'.FwdOk) ∧
    (e.kind.limit = none → e.dst ≠ g.entry → e.src ≠ returnLabel →
      e.src ≠ rethrowLabel → ∀ ow, ∃ g', g.connect e ow = .ok g') ∧
    (∀ n, e.kind.limit = some n → e.src ∈ g.blocks →
      n ≤ g.kindCount e.src e.kind → e.dst ≠ g.entry →
      e.src ≠ returnLabel → e.src ≠ rethrowLabel →
      g.connect e false =
        .error "Cannot add edge, limit reached. Use overwrite=True." ∧
      ∃ g', g.connect e true = .ok g' ∧ g'.kindCount e.src e.kind = 1) := by
  have hg2le : ∀ b k,
      (match e.dst with
       | some d => (g.addBlock e.src).addBlock d
       | none => g.addBlock e.src).kindCount b k ≤ g.kindCount b k := by
    intro b k
    cases e.dst with
    | none => exact addBlock_kindCount_le g e.src b k
    | some d =>
      exact le_trans (addBlock_kindCount_le _ d b k)
        (addBlock_kindCount_le g e.src b k)
  have hg2inv : ∀ b k n, EdgeKind.limit k = some n →
      (match e.dst with
       | some d => (g.addBlock e.src).addBlock d
       | none => g.addBlock e.src).kindCount b k ≤ n :=
    fun b k n hn => le_trans (hg2le b k) (hInv b k n hn)
  have hg2ok :
      (match e.dst with
       | some d => (g.addBlock e.src).addBlock d
       | none => g.addBlock e.src).FwdOk := by
    cases e.dst with
    | none => exact addBlock_fwdOk g e.src hOk
    | some d => exact addBlock_fwdOk _ d (addBlock_fwdOk g e.src hOk)
  refine ⟨?_, ?_, ?_⟩
  · intro ow g' hok
    unfold CFGraph.connect at hok
    split at hok
    · simp at hok
    split at hok
    · simp at hok
    split at hok
    · simp at hok
    simp only [] at hok
    split at hok
    case _ hnone =>
      rw [Except.ok.injEq] at hok
      subst hok
      exact connect_ok_preserves _ e hg2inv hg2ok
        (fun n hn => by rw [hnone] at hn; cases hn)
    case _ lim hsome =>
      split at hok
      case isTrue hge =>
        split at hok
        case isTrue how =>
          rw [Except.ok.injEq] at hok
          subst hok
          refine connect_ok_preserves _ e
            (fun b k n hn =>
              le_trans (foldl_disconnect_kindCount_le _ _ b k)
                (hg2inv b k n hn))
            (foldl_disconnect_fwdOk _ _ hg2ok) ?_
          intro n hn
          have hn1 : n = 1 := limit_is_one e.kind n hn
          subst hn1
          have hsrcs : ∀ c ∈ (((match e.dst with
              | some d => (g.addBlock e.src).addBlock d
              | none => g.addBlock e.src : CFGraph)).fwdOf e.src).filter
                (fun x : GEdge => x.kind = e.kind), c.src = e.src :=
            fun c hc => hg2ok e.src c (List.mem_of_mem_filter hc)
          rw [foldl_disconnect_fwdOf _ _ _ hsrcs,
            insertEdge_filter_singleton _ e (foldl_filter_conflicts_nil _ _)]
          simp
        case isFalse how => simp at hok
      case isFalse hlt =>
        rw [Except.ok.injEq] at hok
        subst hok
        refine connect_ok_preserves _ e hg2inv hg2ok ?_
        intro n hn
        rw [hsome] at hn
        cases hn
        refine le_trans (insertEdge_kind_filter _ e e.kind) ?_
        rw [if_pos rfl]
        omega
  · intro hnone h1 h2 h3 ow
    unfold CFGraph.connect
    rw [if_neg h1, if_neg h2, if_neg h3]
    simp only [hnone]
    exact ⟨_, rfl⟩
  · intro n hn hmem hcnt h1 h2 h3
    have hfw : ((match e.dst with
        | some d => (g.addBlock e.src).addBlock d
        | none => g.addBlock e.src : CFGraph)).fwdOf e.src = g.fwdOf e.src := by
      rw [addBlock_of_mem g e.src hmem]
      cases e.dst with
      | none => rfl
      | some d =>
        show (g.addBlock d).fwdOf e.src = g.fwdOf e.src
        by_cases hde : e.src = d
        · subst hde
          rw [addBlock_of_mem g e.src hmem]
        · exact addBlock_fwdOf_ne g d e.src hde
    have hconf : (((match e.dst with
        | some d => (g.addBlock e.src).addBlock d
        | none => g.addBlock e.src : CFGraph)).fwdOf e.src).filter
          (fun x : GEdge => x.kind = e.kind) =
        (g.fwdOf e.src).filter (fun x : GEdge => x.kind = e.kind) := by
      rw [hfw]
    have hge : ((((match e.dst with
        | some d => (g.addBlock e.src).addBlock d
        | none => g.addBlock e.src : CFGraph)).fwdOf e.src).filter
          (fun x : GEdge => x.kind = e.kind)).length ≥ n := by
      rw [hconf]
      exact hcnt
    constructor
    · unfold CFGraph.connect
      rw [if_neg h1, if_neg h2, if_neg h3]
      simp only [hn]
      rw [if_pos hge]
      rfl
    · unfold CFGraph.connect
      rw [if_neg h1, if_neg h2, if_neg h3]
      simp only [hn]
      rw [if_pos hge]
      refine ⟨_, rfl, ?_⟩
      rw [connect_result_kindCount, if_pos rfl]
      have hsrcs : ∀ c ∈ (((match e.dst with
          | some d => (g.addBlock e.src).addBlock d
          | none => g.addBlock e.src : CFGraph)).fwdOf e.src).filter
            (fun x : GEdge => x.kind = e.kind), c.src = e.src :=
        fun c hc => hg2ok e.src c (List.mem_of_mem_filter hc)
      rw [foldl_disconnect_fwdOf _ _ _ hsrcs,
        insertEdge_filter_singleton _ e (foldl_filter_conflicts_nil _ _)]
      rfl

theorem gW7_fwdOf (b : Int) :
    gW7.fwdOf b = if b = (0 : Int) then [eW7] else [] := by
  by_cases h : b = (0 : Int) <;>
    simp [gW7, CFGraph.fwdOf, alookup, h]

theorem gW7_inv : gW7.LimitInv := by
  intro b k n hn
  have h1 : n = 1 := limit_is_one k n hn
  subst h1
  unfold CFGraph.kindCount
  rw [gW7_fwdOf]
  split
  · exact List.length_filter_le _ _
  · simp

theorem gW7_ok : gW7.FwdOk := by
  intro b e' he
  rw [gW7_fwdOf] at he
  by_cases h : b = (0 : Int)
  · rw [if_pos h] at he
    simp at he
    subst he
    exact h.symm
  · rw [if_neg h] at he
    simp at he

/-- Witness for the edge-limit claim (C7): in the concrete graph `gW7`
holding one fallthrough edge out of block 0, a second fallthrough is
rejected without overwrite and, with overwrite, replaces the first so
exactly one fallthrough edge remains. -/
theorem connect_edge_limits_witness :
    gW7.LimitInv ∧ gW7.FwdOk ∧
    (gW7.connect eW7b false =
        .error "Cannot add edge, limit reached. Use overwrite=True." ∧
      ∃ g', gW7.connect eW7b true = .ok g' ∧
        g'.kindCount eW7b.src eW7b.kind = 1) :=
  ⟨gW7_inv, gW7_ok,
    (connect_edge_limits gW7 eW7b gW7_inv gW7_ok).2.2 1 rfl (by decide)
      (by decide) (by decide) (by decide) (by decide)⟩

/-- C8: at a displacement that underflows the 16-bit branch range, a
`goto` is substituted with `goto_w`, a `jsr` with `jsr_w`, and a
conditional branch makes `_write_block` raise
`NotImplementedError("Wide conditional substitution is not yet
implemented.")` instead of synthesizing the inverted-condition
rewrite; an existing `goto_w` and every in-range jump are left
alone. -/
theorem wide_jump_substitution (delta : Int) (hd : delta ≤ -32768) :
    adjustWideJump true delta true JumpInsn.goto = .ok JumpInsn.gotoW ∧
    adjustWideJump true delta true JumpInsn.jsr = .ok JumpInsn.jsrW ∧
    (∀ op, adjustWideJump true delta true (JumpInsn.conditional op) =
      .error "Wide conditional substitution is not yet implemented.") ∧
    adjustWideJump true delta true JumpInsn.gotoW = .ok JumpInsn.gotoW ∧
    (∀ d2 : Int, -32768 < d2 →
      ∀ insn, adjustWideJump true d2 true insn = .ok insn) := by
  refine ⟨?_, ?_, ?_, ?_, ?_⟩
  · simp [adjustWideJump, hd, JumpInsn.isConditional]
  · simp [adjustWideJump, hd, JumpInsn.isConditional]
  · intro op
    simp [adjustWideJump, hd, JumpInsn.isConditional]
  · simp [adjustWideJump]
  · intro d2 hd2 insn
    unfold adjustWideJump
    rw [if_neg (fun h => absurd h.2.1 (by omega))]

/-- Witness for the wide-jump claim at the smallest underflowing
displacement. -/
theorem wide_jump_substitution_witness :
    (-32768 : Int) ≤ -32768 ∧
    adjustWideJump true (-32768) true JumpInsn.goto = .ok JumpInsn.gotoW :=
  ⟨by decide, (wide_jump_substitution (-32768) (by decide)).1⟩

/-- C10: `assemble`'s cleanup loop does not restore the block set.
Removing the temporary intermediary block 65335 succeeds, but
`_disconnect`'s `self._blocks.setdefault(edge.from_.label, edge.from_)`
re-registers the block while tearing down its outgoing `goto_w` edge,
so 65335 is still a block of the graph afterwards even though it was
not one before assembly. -/
theorem assemble_temporary_not_removed :
    (gMid.removeBlock 65335).toOption = some gPost ∧
    (65335 : Int) ∉ gPre.blocks ∧
    (65335 : Int) ∈ gPost.blocks ∧
    gPost.blocks ≠ gPre.blocks := by decide

end Kirjava
